import Mathlib

/-!
Verification of the AI virtual assistant's Model Adapter Gateway against its
natural-language specification.  The Python source is embedded shallowly:
pure logic becomes Lean functions, the mutable conversation dictionary becomes
an explicit map passed through the operations, exceptions become `Except`,
and the per-request network outcome is an oracle parameter.  Numeric scores
and embedding components are modelled as integers since every property at
stake is order- or shape-theoretic, never floating-point arithmetic.
-/

/-! ## Conversation store (src/agent/datastore/datastore.py) -/

/-- One stored conversation record, as built by
`MockDatabaseClient.store_conversation`: the dictionary with keys
`user_id`, `conversation_history`, `last_conversation_time`,
`start_conversation_time`. History entries are modelled as strings. -/
structure ConvRecord where
  user_id : Option String
  conversation_history : List String
  last_conversation_time : String
  start_conversation_time : String
deriving DecidableEq, Repr

/-- The `MockDatabaseClient.conversations` dictionary, as a map from
session id to stored record. -/
def MockState : Type := String → Option ConvRecord

/-- `MockDatabaseClient.__init__`: `self.conversations = {}`. -/
def mockInit : MockState := fun _ => none

/-- `MockDatabaseClient.store_conversation`:
`self.conversations[session_id] = {...}`. -/
def mockStoreConversation (m : MockState) (session_id : String)
    (user_id : Option String) (conversation_history : List String)
    (last_conversation_time start_conversation_time : String) : MockState :=
  fun t =>
    if t = session_id then
      some ⟨user_id, conversation_history,
            last_conversation_time, start_conversation_time⟩
    else m t

/-- `MockDatabaseClient.fetch_conversation`:
`return self.conversations.get(session_id, None)`. -/
def mockFetchConversation (m : MockState) (session_id : String) :
    Option ConvRecord :=
  m session_id

/-- `MockDatabaseClient.delete_conversation`:
`if session_id in self.conversations: del self.conversations[session_id]`. -/
def mockDeleteConversation (m : MockState) (session_id : String) : MockState :=
  if (m session_id).isSome then
    fun t => if t = session_id then none else m t
  else m

/-- `MockDatabaseClient.is_session`:
`return session_id in self.conversations`. -/
def mockIsSession (m : MockState) (session_id : String) : Bool :=
  (m session_id).isSome

/-- The backend selected by `Datastore.__init__` from the configured
database name. -/
inductive DbBackend where
  | postgres
  | mock
deriving DecidableEq, Repr

/-- `Datastore.__init__`: selects `PostgresClient` for `"postgres"`, the
`MockDatabaseClient` for `"none"`, and raises
`ValueError(f"{db_name} database in not supported. Supported types: postgres, none")`
for anything else (the message reproduces the source verbatim, typo included). -/
def datastoreSelectBackend (db_name : String) : Except String DbBackend :=
  if db_name = "postgres" then .ok .postgres
  else if db_name = "none" then .ok .mock
  else .error (db_name ++ " database in not supported. Supported types: postgres, none")

/-- `Datastore.store_conversation`: delegates to the backend and returns
`None` (the new backend state is the explicit result here). -/
def datastoreStoreConversation (m : MockState) (session_id : String)
    (user_id : Option String) (conversation_history : List String)
    (last_conversation_time start_conversation_time : String) : MockState :=
  mockStoreConversation m session_id user_id conversation_history
    last_conversation_time start_conversation_time

/-- `Datastore.fetch_conversation`: the method body evaluates
`self.database.fetch_conversation(session_id)` but has no `return`
statement, so the facade discards the backend's result and returns `None`
for every input. -/
def datastoreFetchConversation (m : MockState) (session_id : String) :
    Option ConvRecord :=
  let _ := mockFetchConversation m session_id
  none

/-- `Datastore.delete_conversation`: delegates to the backend. -/
def datastoreDeleteConversation (m : MockState) (session_id : String) :
    MockState :=
  mockDeleteConversation m session_id

/-- `Datastore.is_session`: delegates to the backend (with `return`). -/
def datastoreIsSession (m : MockState) (session_id : String) : Bool :=
  mockIsSession m session_id

/-! ## Resilient transport (src/common/assistant_client.py) -/

/-- Outcome of one underlying HTTP attempt inside
`AssistantClient._make_request`: either a parsed JSON body (success path,
`response.json()`), or a `requests.exceptions.RequestException` carrying a
message (network error, timeout, or non-2xx via `raise_for_status`). -/
inductive ReqOutcome where
  | success (body : String)
  | failure (err : String)
deriving DecidableEq, Repr

/-- Observable side effects of `_make_request`: one network attempt per
loop iteration (indexed by the Python `attempt` counter) and one
`time.sleep(retry_delay)` between consecutive failed attempts.  The sleep
always passes the single configured `retry_delay`, so the event does not
repeat it. -/
inductive ReqEvent where
  | attempt (i : Nat)
  | sleep
deriving DecidableEq, Repr

/-- The `for attempt in range(retry_attempts)` loop of
`AssistantClient._make_request`, over the remaining attempt indices.
On success the parsed body is returned; on failure the attempt is logged
(warning elided), then either a sleep precedes the next attempt
(`attempt < retry_attempts - 1`) or the aggregated
`Exception(f"All {retry_attempts} attempts failed: {e}")` is raised.
Falling off the loop returns Python's implicit `None`, hence the
`Except String (Option String)` result. -/
def requestLoop (resp : Nat → ReqOutcome) (retry_attempts : Nat) :
    List Nat → Except String (Option String) × List ReqEvent
  | [] => (.ok none, [])
  | i :: rest =>
    match resp i with
    | .success body => (.ok (some body), [.attempt i])
    | .failure e =>
      if i < retry_attempts - 1 then
        let r := requestLoop resp retry_attempts rest
        (r.1, .attempt i :: .sleep :: r.2)
      else
        (.error ("All " ++ toString retry_attempts ++ " attempts failed: " ++ e),
         [.attempt i])

/-- `AssistantClient._make_request` with the per-attempt network outcome
supplied by the oracle `resp` (the method, endpoint and payload are fixed
inside it). -/
def makeRequest (resp : Nat → ReqOutcome) (retry_attempts : Nat) :
    Except String (Option String) × List ReqEvent :=
  requestLoop resp retry_attempts (List.range retry_attempts)

/-- The event trace `_make_request` produces on an always-failing backend:
every attempt index in order, with a sleep after each attempt except the
final one. -/
def expectedFailTrace (retry_attempts : Nat) : List ReqEvent :=
  (List.range retry_attempts).flatMap
    (fun i => if i < retry_attempts - 1 then [.attempt i, .sleep] else [.attempt i])

/-! ## DataRobot inference clients (src/common/datarobot_client.py) -/

/-- An embedding vector.  Components are modelled as integers: the claims
about embeddings concern only list length and order, never the numeric
values, and the string-encoded case (`eval(embedding)`) is absorbed into
the already-decoded oracle value. -/
def Emb : Type := List Int

instance : DecidableEq Emb := by
  unfold Emb
  infer_instance

/-- `DataRobotEmbeddingsClient.embed_documents`: one prediction call per
text via the oracle `predict` (the result list of `self._deployment.predict`);
a non-empty prediction contributes its first element, an empty one raises
`ValueError(f"No embedding returned for text: {text[:100]}...")`, which the
surrounding `try` re-raises. -/
def embedDocuments (predict : String → List Emb) :
    List String → Except String (List Emb)
  | [] => .ok []
  | text :: rest =>
    match predict text with
    | [] => .error ("No embedding returned for text: " ++ text.take 100 ++ "...")
    | e :: _ =>
      match embedDocuments predict rest with
      | .ok embs => .ok (e :: embs)
      | .error msg => .error msg

/-- `DataRobotEmbeddingsClient.embed_query`:
`embeddings = self.embed_documents([text]); return embeddings[0] if embeddings else []`. -/
def embedQuery (predict : String → List Emb) (text : String) :
    Except String Emb :=
  match embedDocuments predict [text] with
  | .error msg => .error msg
  | .ok embeddings =>
    .ok (match embeddings with
         | [] => ([] : Emb)
         | e :: _ => e)

/-- One chat message in the DataRobot clients' dictionary format:
`(role, content)` pairs. -/
structure DrMessage where
  role : String
  content : String
deriving DecidableEq, Repr

/-- The per-message contribution inside
`DataRobotLLMClient._format_messages_to_prompt`: the three recognized roles
produce a role-prefixed line; any other role string falls through every
branch and contributes nothing. -/
def roleLine (m : DrMessage) : String :=
  if m.role = "system" then "System: " ++ m.content ++ "\n"
  else if m.role = "user" then "User: " ++ m.content ++ "\n"
  else if m.role = "assistant" then "Assistant: " ++ m.content ++ "\n"
  else ""

/-- `DataRobotLLMClient._format_messages_to_prompt`: concatenates the
per-message lines in order and terminates with the open `"Assistant:"` cue. -/
def formatMessagesToPrompt (messages : List DrMessage) : String :=
  (messages.foldl (fun acc m => acc ++ roleLine m) "") ++ "Assistant:"

/-- One entry of `DataRobotRerankClient.rerank`'s result list:
`{"document": doc, "score": score, "index": i}`.  Scores are modelled as
integers; only their ordering matters to the claims. -/
structure RerankRec where
  document : String
  score : Int
  index : Nat
deriving DecidableEq, Repr

/-- The scoring loop of `DataRobotRerankClient.rerank`: one prediction per
document (the oracle takes the query, the document and its index, matching
the dataframe row); a non-empty prediction appends a result record, an
empty one is skipped (warning logged, loop continues). -/
def rerankLoop (score : String → String → Nat → Option Int) (query : String) :
    List String → Nat → List RerankRec
  | [], _ => []
  | doc :: rest, i =>
    match score query doc i with
    | some s => ⟨doc, s, i⟩ :: rerankLoop score query rest (i + 1)
    | none => rerankLoop score query rest (i + 1)

/-- Stable descending insertion used to model
`results.sort(key=lambda x: x["score"], reverse=True)`: the incoming record
(originally earlier in the list) is placed before the first record whose
score does not exceed it, so equal scores keep their original order. -/
def insertScoreDesc (r : RerankRec) : List RerankRec → List RerankRec
  | [] => [r]
  | x :: xs =>
    if x.score ≤ r.score then r :: x :: xs
    else x :: insertScoreDesc r xs

/-- `results.sort(key=lambda x: x["score"], reverse=True)`: Python's sort
is specified as a stable sort, realized here as stable insertion sort. -/
def sortScoreDesc : List RerankRec → List RerankRec
  | [] => []
  | r :: rest => insertScoreDesc r (sortScoreDesc rest)

/-- Python list slicing `l[:k]` for an `int` bound `k`: a nonnegative `k`
keeps the first `k` elements; a negative `k` drops the last `|k|`. -/
def pySliceTo {α : Type} (l : List α) (k : Int) : List α :=
  if 0 ≤ k then l.take k.toNat
  else l.take ((l.length : Int) + k).toNat

/-- `DataRobotRerankClient.rerank`: score every document, sort stably by
score descending, then apply `results[:top_k]` when `top_k` is not `None`. -/
def rerank (score : String → String → Nat → Option Int) (query : String)
    (documents : List String) (top_k : Option Int) : List RerankRec :=
  let results := rerankLoop score query documents 0
  let sorted := sortScoreDesc results
  match top_k with
  | some k => pySliceTo sorted k
  | none => sorted

/-! ## LangChain bridge (src/common/datarobot_langchain.py) -/

/-- A LangChain message object as seen by `DataRobotChatModel._generate`:
`SystemMessage`, `HumanMessage`, `AIMessage`, or any other `BaseMessage`
subclass (tool/function/chat messages).  Contents are modelled as strings,
so the `str(message.content)` coercion is the identity here. -/
inductive LCMessage where
  | system (content : String)
  | human (content : String)
  | ai (content : String)
  | other (content : String)
deriving DecidableEq, Repr

/-- The content carried by a LangChain message. -/
def lcContent : LCMessage → String
  | .system c => c
  | .human c => c
  | .ai c => c
  | .other c => c

/-- The per-message conversion in `DataRobotChatModel._generate`:
system/human/AI messages map to their role tag; every other message type
is handled as a user message with stringified content. -/
def convertMessage : LCMessage → DrMessage
  | .system c => ⟨"system", c⟩
  | .human c => ⟨"user", c⟩
  | .ai c => ⟨"assistant", c⟩
  | .other c => ⟨"user", c⟩

/-- The message-conversion loop of `DataRobotChatModel._generate`. -/
def convertMessages (messages : List LCMessage) : List DrMessage :=
  messages.map convertMessage

/-- A metadata value in a LangChain `Document`. -/
inductive MetaVal where
  | str (s : String)
  | int (n : Int)
deriving DecidableEq, Repr

/-- A LangChain `Document`: page content plus a metadata dictionary,
modelled as an insertion-ordered key/value list. -/
structure Document where
  page_content : String
  metadata : List (String × MetaVal)
deriving DecidableEq, Repr

/-- Python dict-literal update `{**orig, key: v}`: replaces the value in
place when the key is present, otherwise appends the new key at the end. -/
def dictInsert (m : List (String × MetaVal)) (key : String) (v : MetaVal) :
    List (String × MetaVal) :=
  if m.any (fun p => p.1 = key) then
    m.map (fun p => if p.1 = key then (key, v) else p)
  else m ++ [(key, v)]

/-- The re-materialization loop of `DataRobotRerank.compress_documents`:
for each rerank result, look up `documents[result["index"]]` (an
out-of-range index raises `IndexError`, caught by the surrounding `try`)
and build a new document carrying the original metadata plus
`rerank_score` and the 1-based `rerank_rank`. -/
def compressLoop (documents : List Document) :
    List RerankRec → List Document → Except Unit (List Document)
  | [], acc => .ok acc.reverse
  | r :: rest, acc =>
    match documents.get? r.index with
    | none => .error ()
    | some original =>
      let newDoc : Document :=
        ⟨original.page_content,
         dictInsert (dictInsert original.metadata "rerank_score" (.int r.score))
           "rerank_rank" (.int ((acc.length : Int) + 1))⟩
      compressLoop documents rest (newDoc :: acc)

/-- `DataRobotRerank.compress_documents`: extract the page contents, call
the rerank client with `top_k = self.top_n`, and re-materialize documents
in the new order; any exception (a failing rerank backend, or an
out-of-range index) is caught and answered with the fail-open fallback
`documents[:self.top_n]`. -/
def compressDocuments
    (rerankFn : String → List String → Option Int → Except String (List RerankRec))
    (top_n : Int) (documents : List Document) (query : String) : List Document :=
  match rerankFn query (documents.map (fun d => d.page_content)) (some top_n) with
  | .error _ => pySliceTo documents top_n
  | .ok results =>
    match compressLoop documents results [] with
    | .ok docs => docs
    | .error _ => pySliceTo documents top_n

/-- Descending lexicographic order on rerank records: strictly higher
score first, ties broken by original position.  A stable descending sort
of a list with strictly increasing indices is pairwise `descLex`. -/
def descLex (a b : RerankRec) : Prop :=
  b.score < a.score ∨ (a.score = b.score ∧ a.index < b.index)

/-! ## Theorems -/

deriving instance DecidableEq for Except

/-- Claim C8: constructing the conversation store with any backend name
other than `"postgres"` or `"none"` raises the configuration error at
construction time, while `"postgres"` and `"none"` select the relational
and in-memory backends respectively. -/
theorem datastore_backend_selection (db_name : String)
    (h1 : db_name ≠ "postgres") (h2 : db_name ≠ "none") :
    datastoreSelectBackend "postgres" = .ok .postgres
    ∧ datastoreSelectBackend "none" = .ok .mock
    ∧ datastoreSelectBackend db_name
        = .error (db_name ++ " database in not supported. Supported types: postgres, none") := by
  refine ⟨rfl, rfl, ?_⟩
  unfold datastoreSelectBackend
  rw [if_neg h1, if_neg h2]

/-- Witness for `datastore_backend_selection` at the unsupported backend
name `"redis"`. -/
theorem datastore_backend_selection_witness :
    datastoreSelectBackend "postgres" = .ok .postgres
    ∧ datastoreSelectBackend "none" = .ok .mock
    ∧ datastoreSelectBackend "redis"
        = .error "redis database in not supported. Supported types: postgres, none" := by
  obtain ⟨a, b, c⟩ := datastore_backend_selection "redis" (by decide) (by decide)
  exact ⟨a, b, c.trans (by decide)⟩

/-- Claim C10: on the in-memory backend, storing or deleting a session `s`
leaves every other session `t` unchanged, and deleting an absent session
id is a no-op that changes no entry. -/
theorem mock_store_delete_frame (m : MockState) (s t : String) (h : t ≠ s)
    (user_id : Option String) (history : List String)
    (last_time start_time : String) :
    mockFetchConversation
        (mockStoreConversation m s user_id history last_time start_time) t
      = mockFetchConversation m t
    ∧ mockFetchConversation (mockDeleteConversation m s) t
      = mockFetchConversation m t
    ∧ (mockFetchConversation m s = none → mockDeleteConversation m s = m) := by
  refine ⟨?_, ?_, ?_⟩
  · simp [mockFetchConversation, mockStoreConversation, h]
  · unfold mockFetchConversation mockDeleteConversation
    by_cases hs : (m s).isSome
    · rw [if_pos hs]
      simp [h]
    · rw [if_neg hs]
  · intro habs
    unfold mockDeleteConversation
    rw [mockFetchConversation] at habs
    simp [habs]

/-- Witness for `mock_store_delete_frame`: store and delete on session
`"s1"` leave session `"s2"` alone, and deleting absent `"s1"` from a map
holding only `"s2"` is the identity. -/
theorem mock_store_delete_frame_witness :
    mockFetchConversation
        (mockStoreConversation
          (mockStoreConversation mockInit "s2" none ["x"] "a" "b")
          "s1" none ["hi"] "t1" "t0") "s2"
      = mockFetchConversation
          (mockStoreConversation mockInit "s2" none ["x"] "a" "b") "s2"
    ∧ mockFetchConversation
        (mockDeleteConversation
          (mockStoreConversation mockInit "s2" none ["x"] "a" "b") "s1") "s2"
      = mockFetchConversation
          (mockStoreConversation mockInit "s2" none ["x"] "a" "b") "s2"
    ∧ mockDeleteConversation
        (mockStoreConversation mockInit "s2" none ["x"] "a" "b") "s1"
      = mockStoreConversation mockInit "s2" none ["x"] "a" "b" := by
  obtain ⟨a, b, c⟩ :=
    mock_store_delete_frame (mockStoreConversation mockInit "s2" none ["x"] "a" "b")
      "s1" "s2" (by decide) none ["hi"] "t1" "t0"
  exact ⟨a, b, c (by decide)⟩

/-- Claim C1 (code bug): after storing history `["hi"]` for session
`"s1"` through the in-memory backend, the backend itself holds the exact
history, but the `Datastore` facade's `fetch_conversation` — whose body
lacks a `return` statement — yields `None`, not the stored history. -/
theorem datastore_fetch_returns_none_after_store :
    mockFetchConversation
        (datastoreStoreConversation mockInit "s1" none ["hi"] "t1" "t0") "s1"
      = some ⟨none, ["hi"], "t1", "t0"⟩
    ∧ datastoreFetchConversation
        (datastoreStoreConversation mockInit "s1" none ["hi"] "t1" "t0") "s1"
      = none
    ∧ datastoreFetchConversation
        (datastoreStoreConversation mockInit "s1" none ["hi"] "t1" "t0") "s1"
      ≠ some ⟨none, ["hi"], "t1", "t0"⟩ := by
  exact ⟨by decide, rfl, by decide⟩

/-- Claim C9: with `retry_attempts = 0` the retry loop body never runs:
no network attempt is made (empty trace) and the implicit `None` is
returned rather than any error being raised. -/
theorem make_request_zero_attempts (resp : Nat → ReqOutcome) :
    makeRequest resp 0 = (.ok none, []) := rfl

/-- Claim C7: `embed_query(text)` returns the first element of
`embed_documents([text])` when that list is non-empty, the empty vector
when the list comes back empty, and propagates the error otherwise —
in particular the empty-list case answers softly instead of raising. -/
theorem embed_query_from_documents (predict : String → List Emb) (text : String) :
    match embedDocuments predict [text] with
    | .ok (e :: _) => embedQuery predict text = .ok e
    | .ok [] => embedQuery predict text = .ok ([] : Emb)
    | .error msg => embedQuery predict text = .error msg := by
  cases h : embedDocuments predict [text] with
  | error msg => simp [embedQuery, h]
  | ok l =>
    cases l with
    | nil => simp [embedQuery, h]
    | cons e rest => simp [embedQuery, h]

/-- Claim C3: `embed_documents` either returns exactly one embedding per
input text, in input order (each the first value of that text's
prediction), or raises the error naming the first offending text — never
a partial or reordered list. -/
theorem embed_documents_length_order (predict : String → List Emb)
    (texts : List String) :
    match embedDocuments predict texts with
    | .ok embs =>
        embs.length = texts.length
        ∧ embs = texts.map (fun t => (predict t).headD [])
    | .error msg =>
        ∃ t, t ∈ texts ∧ predict t = []
          ∧ msg = "No embedding returned for text: " ++ t.take 100 ++ "..." := by
  induction texts with
  | nil => simp [embedDocuments]
  | cons t rest ih =>
    cases hp : predict t with
    | nil =>
      simp only [embedDocuments, hp]
      exact ⟨t, by simp, hp, rfl⟩
    | cons e es =>
      cases hr : embedDocuments predict rest with
      | ok embs =>
        rw [hr] at ih
        simp only [embedDocuments, hp, hr]
        simp only [List.map_cons, List.length_cons, hp]
        exact ⟨by rw [ih.1], by rw [ih.2]; simp⟩
      | error msg =>
        rw [hr] at ih
        simp only [embedDocuments, hp, hr]
        obtain ⟨t', ht', hp', hm⟩ := ih
        exact ⟨t', List.mem_cons_of_mem _ ht', hp', hm⟩

/-- Folding string concatenation from an arbitrary accumulator factors
through the empty-accumulator fold. -/
theorem string_foldl_shift (l : List String) : ∀ s : String,
    l.foldl (fun a b => a ++ b) s = s ++ l.foldl (fun a b => a ++ b) "" := by
  induction l with
  | nil => intro s; simp
  | cons x xs ih =>
    intro s
    simp only [List.foldl_cons]
    rw [ih (s ++ x), ih ("" ++ x)]
    simp [String.append_assoc]

/-- `String.join` peels off the head of the list. -/
theorem string_join_cons (x : String) (xs : List String) :
    String.join (x :: xs) = x ++ String.join xs := by
  show List.foldl (fun r s => r ++ s) "" (x :: xs) = x ++ String.join xs
  simp only [List.foldl_cons]
  rw [string_foldl_shift]
  simp [String.join]

/-- Folding a rendered line per element from an arbitrary accumulator
factors through the empty-accumulator fold. -/
theorem foldl_renderLine_shift {α : Type} (f : α → String) (l : List α) :
    ∀ s : String,
    l.foldl (fun acc x => acc ++ f x) s
      = s ++ l.foldl (fun acc x => acc ++ f x) "" := by
  induction l with
  | nil => intro s; simp
  | cons x xs ih =>
    intro s
    simp only [List.foldl_cons]
    rw [ih (s ++ f x), ih ("" ++ f x)]
    simp [String.append_assoc]

/-- The flattened prompt is the concatenation of one `roleLine` per
message, in order, followed by the `"Assistant:"` cue. -/
theorem formatMessagesToPrompt_join (messages : List DrMessage) :
    formatMessagesToPrompt messages
      = String.join (messages.map roleLine) ++ "Assistant:" := by
  unfold formatMessagesToPrompt
  congr 1
  induction messages with
  | nil => simp [String.join]
  | cons m ms ih =>
    simp only [List.foldl_cons, List.map_cons]
    rw [foldl_renderLine_shift roleLine ms ("" ++ roleLine m),
        string_join_cons, ih]
    simp

/-- Claim C6 (counterexample): the flattening step itself does not coerce
an unrecognized role to `"user"` — a message with role `"tool"` is
silently dropped from the prompt instead of appearing as a user line. -/
theorem flatten_drops_unknown_role :
    formatMessagesToPrompt [⟨"tool", "x"⟩] = "Assistant:"
    ∧ formatMessagesToPrompt [⟨"tool", "x"⟩] ≠ "User: x\nAssistant:" := by
  exact ⟨by decide, by decide⟩

/-- Claim C6 (amended): the coercion of unrecognized messages to role
`"user"` happens in the Bridge's message-conversion step, whose output
roles are always `system`/`user`/`assistant`, so every message converted
by the Bridge contributes a role-prefixed line to the flattened prompt;
the flattening step alone drops any other role string. -/
theorem bridge_coerces_unknown_messages (msgs : List LCMessage) (c : String) :
    convertMessage (.other c) = ⟨"user", c⟩
    ∧ formatMessagesToPrompt (convertMessages msgs)
        = String.join (msgs.map (fun m => roleLine (convertMessage m))) ++ "Assistant:"
    ∧ ∀ m : LCMessage, ∃ p,
        p ∈ (["System: ", "User: ", "Assistant: "] : List String)
        ∧ roleLine (convertMessage m) = p ++ lcContent m ++ "\n" := by
  refine ⟨rfl, ?_, ?_⟩
  · rw [formatMessagesToPrompt_join]
    unfold convertMessages
    rw [List.map_map]
    rfl
  · intro m
    cases m with
    | system c2 => exact ⟨"System: ", by simp, by simp [roleLine, convertMessage, lcContent]⟩
    | human c2 => exact ⟨"User: ", by simp, by simp [roleLine, convertMessage, lcContent]⟩
    | ai c2 => exact ⟨"Assistant: ", by simp, by simp [roleLine, convertMessage, lcContent]⟩
    | other c2 => exact ⟨"User: ", by simp, by simp [roleLine, convertMessage, lcContent]⟩

/-- Claim C5: when the rerank backend fails, the Bridge's document
compression does not propagate the error — it returns the original
documents, in their original order, truncated to the configured `top_n`
count (the model's total return type `List Document` reflects that the
source catches every exception on this path). -/
theorem compress_documents_fail_open
    (rerankFn : String → List String → Option Int → Except String (List RerankRec))
    (top_n : Int) (documents : List Document) (query : String) (err : String)
    (hfail : rerankFn query (documents.map (fun d => d.page_content)) (some top_n)
              = .error err)
    (hpos : 0 ≤ top_n) :
    compressDocuments rerankFn top_n documents query
      = documents.take top_n.toNat := by
  unfold compressDocuments
  rw [hfail]
  unfold pySliceTo
  rw [if_pos hpos]

/-- Witness for `compress_documents_fail_open`: a backend that always
fails, `top_n = 2`, three documents. -/
theorem compress_documents_fail_open_witness :
    compressDocuments (fun _ _ _ => .error "down") 2
        [⟨"d1", []⟩, ⟨"d2", []⟩, ⟨"d3", []⟩] "q"
      = [⟨"d1", []⟩, ⟨"d2", []⟩] := by
  have h := compress_documents_fail_open (fun _ _ _ => .error "down") 2
    [⟨"d1", []⟩, ⟨"d2", []⟩, ⟨"d3", []⟩] "q" "down" rfl (by decide)
  exact h.trans (by decide)

/-- On an always-failing backend, the retry loop over any non-empty tail
of the attempt range raises the aggregated error naming the attempt budget
and the final failure, with a sleep after every attempt except the last. -/
theorem requestLoop_fail_cons (errs : Nat → String) (k i : Nat)
    (rest : List Nat) :
    requestLoop (fun j => .failure (errs j)) k (i :: rest)
      = if i < k - 1 then
          ((requestLoop (fun j => .failure (errs j)) k rest).1,
           .attempt i :: .sleep ::
             (requestLoop (fun j => .failure (errs j)) k rest).2)
        else
          (.error ("All " ++ toString k ++ " attempts failed: " ++ errs i),
           [.attempt i]) := rfl

theorem requestLoop_all_fail (errs : Nat → String) (k : Nat) : ∀ n i,
    i + n = k → 0 < n →
    requestLoop (fun j => .failure (errs j)) k (List.range' i n)
      = (.error ("All " ++ toString k ++ " attempts failed: " ++ errs (k - 1)),
         (List.range' i n).flatMap
           (fun j => if j < k - 1 then [.attempt j, .sleep] else [.attempt j])) := by
  intro n
  induction n with
  | zero => intro i h h0; omega
  | succ m ih =>
    intro i hik h0
    cases m with
    | zero =>
      have hi : i = k - 1 := by omega
      have hnot : ¬ i < k - 1 := by omega
      simp [List.range', requestLoop, hnot, hi]
    | succ p =>
      have hlt : i < k - 1 := by omega
      have h1 : List.range' i (p + 1 + 1) = i :: List.range' (i + 1) (p + 1) := rfl
      rw [h1, requestLoop_fail_cons, if_pos hlt, ih (i + 1) (by omega) (by omega)]
      simp [hlt]

/-- The failure trace holds one attempt event per attempt index. -/
theorem failTrace_attempt_count (k : Nat) : ∀ n i,
    ((List.range' i n).flatMap
        (fun j => if j < k - 1 then [ReqEvent.attempt j, .sleep] else [.attempt j])).countP
      (fun e => match e with | .attempt _ => true | .sleep => false) = n := by
  intro n
  induction n with
  | zero => intro i; simp
  | succ m ih =>
    intro i
    have h1 : List.range' i (m + 1) = i :: List.range' (i + 1) m := rfl
    rw [h1, List.flatMap_cons, List.countP_append]
    by_cases hi : i < k - 1 <;> simp [hi, ih (i + 1), Nat.add_comm]

/-- The failure trace holds one sleep event per attempt except the last. -/
theorem failTrace_sleep_count (k : Nat) : ∀ n i, i + n = k →
    ((List.range' i n).flatMap
        (fun j => if j < k - 1 then [ReqEvent.attempt j, .sleep] else [.attempt j])).countP
      (fun e => match e with | .attempt _ => false | .sleep => true) = n - 1 := by
  intro n
  induction n with
  | zero => intro i h; simp
  | succ m ih =>
    intro i hik
    cases m with
    | zero =>
      have hnot : ¬ i < k - 1 := by omega
      simp [List.range', hnot]
    | succ p =>
      have hlt : i < k - 1 := by omega
      have h1 : List.range' i (p + 1 + 1) = i :: List.range' (i + 1) (p + 1) := rfl
      rw [h1, List.flatMap_cons, List.countP_append]
      rw [ih (i + 1) (by omega)]
      simp [hlt]
      omega

/-- Claim C2: with `retry_attempts = k ≥ 1` and every underlying request
failing, `_make_request` performs exactly `k` attempts, sleeps the
configured delay between consecutive attempts but never after the final
one (the trace interleaves exactly `k - 1` sleeps), and raises the single
aggregated error naming `k` and the last underlying failure — it never
produces a successful-looking response. -/
theorem transport_retry_exhaustion (errs : Nat → String) (k : Nat)
    (hk : 1 ≤ k) :
    makeRequest (fun j => .failure (errs j)) k
      = (.error ("All " ++ toString k ++ " attempts failed: " ++ errs (k - 1)),
         expectedFailTrace k)
    ∧ (expectedFailTrace k).countP
        (fun e => match e with | .attempt _ => true | .sleep => false) = k
    ∧ (expectedFailTrace k).countP
        (fun e => match e with | .attempt _ => false | .sleep => true) = k - 1 := by
  refine ⟨?_, ?_, ?_⟩
  · unfold makeRequest expectedFailTrace
    rw [List.range_eq_range']
    exact requestLoop_all_fail errs k k 0 (by omega) (by omega)
  · unfold expectedFailTrace
    rw [List.range_eq_range']
    exact failTrace_attempt_count k k 0
  · unfold expectedFailTrace
    rw [List.range_eq_range']
    exact failTrace_sleep_count k k 0 (by omega)

/-- Witness for `transport_retry_exhaustion` at `retry_attempts = 2`. -/
theorem transport_retry_exhaustion_witness :
    makeRequest (fun _ => ReqOutcome.failure "boom") 2
      = (.error "All 2 attempts failed: boom",
         [.attempt 0, .sleep, .attempt 1]) := by
  have h := (transport_retry_exhaustion (fun _ => "boom") 2 (by decide)).1
  exact h.trans (by decide)

/-- Membership in a stable descending insertion. -/
theorem mem_insertScoreDesc (r a : RerankRec) (l : List RerankRec) :
    a ∈ insertScoreDesc r l ↔ a = r ∨ a ∈ l := by
  induction l with
  | nil => simp [insertScoreDesc]
  | cons x xs ih =>
    unfold insertScoreDesc
    by_cases h : x.score ≤ r.score
    · rw [if_pos h]
      simp
    · rw [if_neg h]
      simp [ih]
      tauto

/-- Stable descending insertion permutes the cons. -/
theorem insertScoreDesc_perm (r : RerankRec) (l : List RerankRec) :
    List.Perm (insertScoreDesc r l) (r :: l) := by
  induction l with
  | nil => rfl
  | cons x xs ih =>
    unfold insertScoreDesc
    by_cases h : x.score ≤ r.score
    · rw [if_pos h]
    · rw [if_neg h]
      exact (ih.cons x).trans (List.Perm.swap r x xs)

/-- The modelled Python sort is a permutation of its input. -/
theorem sortScoreDesc_perm (l : List RerankRec) : List.Perm (sortScoreDesc l) l := by
  induction l with
  | nil => rfl
  | cons r rest ih =>
    exact (insertScoreDesc_perm r (sortScoreDesc rest)).trans (ih.cons r)

/-- Inserting a record that originally preceded every element of an
already `descLex`-pairwise list keeps the list pairwise `descLex`. -/
theorem insertScoreDesc_pairwise (r : RerankRec) (l : List RerankRec)
    (hl : l.Pairwise descLex)
    (hr : ∀ x ∈ l, x.score = r.score → r.index < x.index) :
    (insertScoreDesc r l).Pairwise descLex := by
  induction l with
  | nil => simp [insertScoreDesc, List.pairwise_cons]
  | cons x xs ih =>
    rw [List.pairwise_cons] at hl
    obtain ⟨hx, hxs⟩ := hl
    unfold insertScoreDesc
    by_cases h : x.score ≤ r.score
    · rw [if_pos h]
      rw [List.pairwise_cons]
      refine ⟨?_, List.pairwise_cons.mpr ⟨hx, hxs⟩⟩
      intro y hy
      have hscore : y.score ≤ r.score := by
        rcases List.mem_cons.mp hy with rfl | hmem
        · exact h
        · rcases hx y hmem with hlt | ⟨heq, _⟩
          · exact le_trans (le_of_lt hlt) h
          · exact le_trans (le_of_eq heq.symm) h
      rcases lt_or_eq_of_le hscore with hlt | heq
      · exact Or.inl hlt
      · exact Or.inr ⟨heq.symm, hr y hy heq⟩
    · rw [if_neg h]
      rw [List.pairwise_cons]
      constructor
      · intro y hy
        rcases (mem_insertScoreDesc r y xs).mp hy with rfl | hmem
        · exact Or.inl (lt_of_not_le h)
        · exact hx y hmem
      · exact ih hxs (fun y hy => hr y (List.mem_cons_of_mem x hy))

/-- A stable descending sort of a list with strictly increasing indices is
pairwise `descLex`: scores are non-increasing and ties keep the original
relative order. -/
theorem sortScoreDesc_pairwise (l : List RerankRec)
    (hl : l.Pairwise (fun a b => a.index < b.index)) :
    (sortScoreDesc l).Pairwise descLex := by
  induction l with
  | nil => simp [sortScoreDesc]
  | cons r rest ih =>
    rw [List.pairwise_cons] at hl
    obtain ⟨hidx, hrest⟩ := hl
    refine insertScoreDesc_pairwise r (sortScoreDesc rest) (ih hrest) ?_
    intro x hx _
    exact hidx x ((sortScoreDesc_perm rest).mem_iff.mp hx)

/-- Soundness of the scoring loop: every produced record is an input
document at its own index, carrying exactly the score the oracle produced
for it. -/
theorem rerankLoop_mem_sound (score : String → String → Nat → Option Int)
    (q : String) : ∀ (docs : List String) (i : Nat) (r : RerankRec),
    r ∈ rerankLoop score q docs i →
    ∃ j, docs[j]? = some r.document ∧ r.index = i + j
         ∧ score q r.document r.index = some r.score := by
  intro docs
  induction docs with
  | nil => intro i r hr; simp [rerankLoop] at hr
  | cons d ds ih =>
    intro i r hr
    unfold rerankLoop at hr
    cases hs : score q d i with
    | some s =>
      rw [hs] at hr
      rcases List.mem_cons.mp hr with rfl | hmem
      · exact ⟨0, by simp, by simp, by simpa using hs⟩
      · obtain ⟨j, hj1, hj2, hj3⟩ := ih (i + 1) r hmem
        exact ⟨j + 1, by simpa using hj1, by omega, hj3⟩
    | none =>
      rw [hs] at hr
      obtain ⟨j, hj1, hj2, hj3⟩ := ih (i + 1) r hr
      exact ⟨j + 1, by simpa using hj1, by omega, hj3⟩

/-- Every record produced by the loop has index at least the start index. -/
theorem rerankLoop_index_lb (score : String → String → Nat → Option Int)
    (q : String) (docs : List String) (i : Nat) (r : RerankRec)
    (hr : r ∈ rerankLoop score q docs i) : i ≤ r.index := by
  obtain ⟨j, _, hj, _⟩ := rerankLoop_mem_sound score q docs i r hr
  omega

/-- The scoring loop produces records with strictly increasing indices. -/
theorem rerankLoop_pairwise_index (score : String → String → Nat → Option Int)
    (q : String) : ∀ (docs : List String) (i : Nat),
    (rerankLoop score q docs i).Pairwise (fun a b => a.index < b.index) := by
  intro docs
  induction docs with
  | nil => intro i; simp [rerankLoop]
  | cons d ds ih =>
    intro i
    unfold rerankLoop
    cases hs : score q d i with
    | some s =>
      rw [List.pairwise_cons]
      refine ⟨?_, ih (i + 1)⟩
      intro b hb
      have := rerankLoop_index_lb score q ds (i + 1) b hb
      simp
      omega
    | none => exact ih (i + 1)

/-- The scoring loop never produces more records than documents. -/
theorem rerankLoop_length (score : String → String → Nat → Option Int)
    (q : String) : ∀ (docs : List String) (i : Nat),
    (rerankLoop score q docs i).length ≤ docs.length := by
  intro docs
  induction docs with
  | nil => intro i; simp [rerankLoop]
  | cons d ds ih =>
    intro i
    unfold rerankLoop
    cases score q d i with
    | some s =>
      simp only [List.length_cons]
      exact Nat.succ_le_succ (ih (i + 1))
    | none =>
      exact Nat.le_succ_of_le (ih (i + 1))

/-- Completeness of the scoring loop: a document whose prediction yields a
score is not dropped — its record is in the loop's output. -/
theorem rerankLoop_mem_complete (score : String → String → Nat → Option Int)
    (q : String) : ∀ (docs : List String) (i j : Nat) (d : String) (s : Int),
    docs[j]? = some d → score q d (i + j) = some s →
    (⟨d, s, i + j⟩ : RerankRec) ∈ rerankLoop score q docs i := by
  intro docs
  induction docs with
  | nil => intro i j d s hj _; simp at hj
  | cons d0 ds ih =>
    intro i j d s hj hs
    cases j with
    | zero =>
      simp at hj
      subst hj
      rw [Nat.add_zero] at hs
      unfold rerankLoop
      rw [hs]
      simp
    | succ m =>
      simp at hj
      have hs' : score q d ((i + 1) + m) = some s := by
        rw [show (i + 1) + m = i + (m + 1) by omega]
        exact hs
      have hmem := ih (i + 1) m d s hj hs'
      have heq : ((i + 1) + m) = i + (m + 1) := by omega
      rw [heq] at hmem
      unfold rerankLoop
      cases score q d0 i with
      | some s0 => exact List.mem_cons_of_mem _ hmem
      | none => exact hmem

/-- Python slicing `l[:k]` yields a sublist (in fact a prefix). -/
theorem pySliceTo_sublist {α : Type} (l : List α) (k : Int) :
    List.Sublist (pySliceTo l k) l := by
  unfold pySliceTo
  split
  · exact List.take_sublist _ _
  · exact List.take_sublist _ _

/-- Python slicing `l[:k]` with nonnegative `k` keeps at most `k`
elements. -/
theorem pySliceTo_length_le {α : Type} (l : List α) (k : Int) (hk : 0 ≤ k) :
    (pySliceTo l k).length ≤ k.toNat := by
  unfold pySliceTo
  rw [if_pos hk]
  simp [List.length_take]

/-- Claim C4 (amended): on any input, `rerank`'s output records are drawn
only from the input documents (each carries its own original index and the
oracle's score — never fabricated), scores are sorted non-increasing with
ties keeping the documents' original relative order, documents with empty
prediction results are skipped while every scored document survives to the
pre-truncation list, and when a nonnegative `top_k` is given the output
length is at most `min(len(documents), top_k)`.  (A negative `top_k` is
interpreted by Python slice semantics and escapes that bound; see the
counterexample.) -/
theorem rerank_output_spec (score : String → String → Nat → Option Int)
    (query : String) (documents : List String) (k : Int) :
    (∀ r ∈ rerank score query documents (some k),
        documents[r.index]? = some r.document
        ∧ score query r.document r.index = some r.score)
    ∧ (rerank score query documents (some k)).Pairwise
        (fun a b => b.score ≤ a.score)
    ∧ (rerank score query documents (some k)).Pairwise
        (fun a b => a.score = b.score → a.index < b.index)
    ∧ (0 ≤ k → (rerank score query documents (some k)).length
          ≤ min documents.length k.toNat)
    ∧ (rerank score query documents (some k)).length ≤ documents.length
    ∧ (∀ j d s, documents[j]? = some d → score query d j = some s →
        (⟨d, s, j⟩ : RerankRec)
          ∈ sortScoreDesc (rerankLoop score query documents 0)) := by
  have hout : rerank score query documents (some k)
      = pySliceTo (sortScoreDesc (rerankLoop score query documents 0)) k := rfl
  have hsubl : List.Sublist
      (pySliceTo (sortScoreDesc (rerankLoop score query documents 0)) k)
      (sortScoreDesc (rerankLoop score query documents 0)) :=
    pySliceTo_sublist _ _
  have hperm := sortScoreDesc_perm (rerankLoop score query documents 0)
  have hpair := sortScoreDesc_pairwise (rerankLoop score query documents 0)
    (rerankLoop_pairwise_index score query documents 0)
  have hlen : (sortScoreDesc (rerankLoop score query documents 0)).length
      ≤ documents.length := by
    rw [hperm.length_eq]
    exact rerankLoop_length score query documents 0
  refine ⟨?_, ?_, ?_, ?_, ?_, ?_⟩
  · intro r hr
    rw [hout] at hr
    have hr3 : r ∈ rerankLoop score query documents 0 :=
      hperm.mem_iff.mp (hsubl.subset hr)
    obtain ⟨j, hj1, hj2, hj3⟩ :=
      rerankLoop_mem_sound score query documents 0 r hr3
    have hji : r.index = j := by omega
    exact ⟨by rw [hji]; exact hj1, hj3⟩
  · rw [hout]
    refine List.Pairwise.sublist hsubl (hpair.imp ?_)
    intro a b hab
    rcases hab with hlt | ⟨heq, _⟩
    · exact le_of_lt hlt
    · exact le_of_eq heq.symm
  · rw [hout]
    refine List.Pairwise.sublist hsubl (hpair.imp ?_)
    intro a b hab
    rcases hab with hlt | ⟨heq, hidx⟩
    · intro heq2; omega
    · intro _; exact hidx
  · intro hk
    rw [hout]
    refine Nat.le_min.mpr ⟨?_, ?_⟩
    · exact le_trans (List.Sublist.length_le hsubl) hlen
    · exact pySliceTo_length_le _ _ hk
  · rw [hout]
    exact le_trans (List.Sublist.length_le hsubl) hlen
  · intro j d s hj hs
    have h0 : (0 : Nat) + j = j := Nat.zero_add j
    have hs' : score query d (0 + j) = some s := by rw [h0]; exact hs
    have hmem := rerankLoop_mem_complete score query documents 0 j d s hj hs'
    rw [h0] at hmem
    exact hperm.mem_iff.mpr hmem

/-- Claim C4 (counterexample to the claim as stated): with every document
scoring successfully and `top_k = -1`, Python slice semantics keep one of
the two results, so the output length exceeds `min(len(documents), top_k)`. -/
theorem rerank_topk_bound_counterexample :
    (rerank (fun _ _ _ => some 0) "q" ["a", "b"] (some (-1))).length = 1
    ∧ ¬ (((rerank (fun _ _ _ => some 0) "q" ["a", "b"] (some (-1))).length : Int)
          ≤ min ((["a", "b"] : List String).length : Int) (-1)) := by
  exact ⟨by decide, by decide⟩

/-- Witness for `rerank_output_spec`: three documents, the middle one
failing to score, `top_k = 2`. -/
theorem rerank_output_spec_witness :
    ((["a", "b", "c"] : List String)[(⟨"a", 1, 0⟩ : RerankRec).index]?
        = some (⟨"a", 1, 0⟩ : RerankRec).document
      ∧ (fun _ d _ => if d = "b" then none else some (1 : Int)) "q"
          (⟨"a", 1, 0⟩ : RerankRec).document (⟨"a", 1, 0⟩ : RerankRec).index
        = some (⟨"a", 1, 0⟩ : RerankRec).score)
    ∧ (rerank (fun _ d _ => if d = "b" then none else some (1 : Int)) "q"
          ["a", "b", "c"] (some 2)).length
        ≤ min (["a", "b", "c"] : List String).length (2 : Int).toNat
    ∧ (⟨"a", 1, 0⟩ : RerankRec) ∈ sortScoreDesc
        (rerankLoop (fun _ d _ => if d = "b" then none else some (1 : Int))
          "q" ["a", "b", "c"] 0) := by
  have h := rerank_output_spec
    (fun _ d _ => if d = "b" then none else some (1 : Int)) "q"
    ["a", "b", "c"] 2
  exact ⟨h.1 ⟨"a", 1, 0⟩ (by decide), h.2.2.2.1 (by decide),
         h.2.2.2.2.2 0 "a" 1 (by decide) (by decide)⟩
